import Mathlib

/-!
Verification of the OpenPAI VS Code client spec against the repository.

Part 1 models the HDFS-backed virtual filesystem adapter described in the
spec (sections 3, 4, 6, 7).  The adapter implementation itself
(`src/pai/storage/hdfs.ts`, class `HDFSFileSystemProvider`) is not among the
provided source files; only its tests (`hello.test.ts`) and callers
(`paiJobManager.ts`) are.  Those definitions are therefore modelled from the
spec's own words, as marked in their doc comments.

Part 2 embeds the `codeDir` resolution and directory-creation bookkeeping of
`PAIJobManager.uploadCode` (present in the sources), used by claims about the
upload path.
-/

/-- A remote path, as a list of POSIX path components (the spec's
`RemoteLocator.path`, normalized; the cluster authority is fixed throughout a
run and omitted). The root directory is the empty list. -/
abbrev RPath := List String

/-- A byte sequence (file content). -/
abbrev Bytes := List Nat

/-- Modelled from the spec: a node of the remote filesystem is either a file
with its content or a directory (spec section 3, `DirectoryEntry.kind`). -/
inductive HNode where
  | file (content : Bytes)
  | dir
deriving DecidableEq

/-- Modelled from the spec: the error taxonomy of section 7. -/
inductive FsError where
  | unknownCluster
  | notFound
  | notEmpty
  | destinationExists
  | accessDenied
  | transport
  | protocol
deriving DecidableEq

/-- A directory-listing entry: the child name together with its node
(covering the spec's `{name, kind}`; the file content doubles as size). -/
abbrev DirEntry := String × HNode

/-- Modelled from the spec: the remote filesystem state, a flat index from
normalized paths to nodes (spec section 3: "it is a flat index, not a
tree"). -/
abbrev FSys := List (RPath × HNode)

/-- Look up the node stored at a path (first match). -/
def findNode : FSys → RPath → Option HNode
  | [], _ => none
  | (q, n) :: rest, p => if q = p then some n else findNode rest p

/-- Remove every binding for a given path. -/
def filterOut : FSys → RPath → FSys
  | [], _ => []
  | (q, n) :: rest, p =>
    if q = p then filterOut rest p else (q, n) :: filterOut rest p

/-- Bind a path to a node, replacing any previous binding. -/
def setNode (fs : FSys) (p : RPath) (n : HNode) : FSys :=
  filterOut fs p ++ [(p, n)]

/-- Decide whether `q` lies inside the subtree rooted at `p` (including
`q = p` itself): `p` is a component-wise prefix of `q`. -/
def isUnder : RPath → RPath → Bool
  | [], _ => true
  | _ :: _, [] => false
  | a :: as, b :: bs => if a = b then isUnder as bs else false

/-- Remove a path and everything beneath it. -/
def removeTree : FSys → RPath → FSys
  | [], _ => []
  | (q, n) :: rest, p =>
    if isUnder p q then removeTree rest p else (q, n) :: removeTree rest p

/-- Does the filesystem hold any entry strictly below `p`? -/
def hasDescendant (fs : FSys) (p : RPath) : Bool :=
  fs.any (fun e => isUnder p e.1 && decide (e.1 ≠ p))

/-- Return `some name` precisely when `q = d ++ [name]`, that is when `q`
names a direct child of directory `d`. -/
def splitChild (d q : RPath) : Option String :=
  if q ≠ [] ∧ q.dropLast = d then q.getLast? else none

/-- Modelled from the spec: the `LISTSTATUS` translation - the ordered
sequence of direct children of a directory, in the order the remote index
returns them (spec section 4.2, `listDirectory`). -/
def listFS : FSys → RPath → List DirEntry
  | [], _ => []
  | (q, n) :: rest, d =>
    match splitChild d q with
    | some name => (name, n) :: listFS rest d
    | none => listFS rest d

/-- Modelled from the spec: `createFile(locator, bytes, {overwrite})` at the
remote-state level; fails with a destination-exists error when the target
already exists and `overwrite` is not set (spec sections 4.2, 8). -/
def createFileFS (fs : FSys) (p : RPath) (b : Bytes) (overwrite : Bool) :
    Except FsError FSys :=
  match findNode fs p with
  | some HNode.dir => Except.error FsError.destinationExists
  | some (HNode.file _) =>
    if overwrite then Except.ok (setNode fs p (HNode.file b))
    else Except.error FsError.destinationExists
  | none => Except.ok (setNode fs p (HNode.file b))

/-- Modelled from the spec: whole-file `readFile(locator) -> bytes`
(spec section 4.2, read is single-phase and exposed whole-file). -/
def readFileFS (fs : FSys) (p : RPath) : Except FsError Bytes :=
  match findNode fs p with
  | some (HNode.file b) => Except.ok b
  | some HNode.dir => Except.error FsError.protocol
  | none => Except.error FsError.notFound

/-- Modelled from the spec: idempotent `MKDIRS`; succeeds silently when the
directory already exists (spec section 4.2, `createDirectory`). -/
def mkdirFS (fs : FSys) (p : RPath) : Except FsError FSys :=
  match findNode fs p with
  | some HNode.dir => Except.ok fs
  | some (HNode.file _) => Except.error FsError.destinationExists
  | none => Except.ok (setNode fs p HNode.dir)

/-- Modelled from the spec: `DELETE`; fails with `NotEmptyError` when
`recursive = false` and the target is a non-empty directory
(spec section 4.2, `delete`). -/
def deleteFS (fs : FSys) (p : RPath) (recursive : Bool) : Except FsError FSys :=
  match findNode fs p with
  | none => Except.error FsError.notFound
  | some (HNode.file _) => Except.ok (removeTree fs p)
  | some HNode.dir =>
    if !recursive && hasDescendant fs p then Except.error FsError.notEmpty
    else Except.ok (removeTree fs p)

/-- Move the subtree at `src` to `dst`, rewriting every path below `src`. -/
def renameTree (fs : FSys) (src dst : RPath) : FSys :=
  fs.map (fun e =>
    if isUnder src e.1 then (dst ++ e.1.drop src.length, e.2) else e)

/-- Modelled from the spec: `RENAME`; fails with `DestinationExistsError`
when the destination already exists (spec section 4.2, `rename`). -/
def renameFS (fs : FSys) (src dst : RPath) : Except FsError FSys :=
  match findNode fs src with
  | none => Except.error FsError.notFound
  | some _ =>
    match findNode fs dst with
    | some _ => Except.error FsError.destinationExists
    | none => Except.ok (renameTree fs src dst)

/-- The result of fetching a directory listing fresh from the remote state
(the uncached `LISTSTATUS` exchange). -/
def freshList (fs : FSys) (p : RPath) : Except FsError (List DirEntry) :=
  match findNode fs p with
  | some HNode.dir => Except.ok (listFS fs p)
  | some (HNode.file _) => Except.error FsError.protocol
  | none => Except.error FsError.notFound

/-- Modelled from the spec: the metadata cache, a flat map from normalized
paths to cached ordered listings (spec section 3, `CacheEntry`; the
`fetchedAt` stamp is never consulted - the cache is purely
invalidation-driven - so it is omitted). -/
abbrev Cache := List (RPath × List DirEntry)

/-- Look up a cached listing (first match). -/
def cacheLookup : Cache → RPath → Option (List DirEntry)
  | [], _ => none
  | (q, l) :: rest, p => if q = p then some l else cacheLookup rest p

/-- Modelled from the spec: `invalidate(path)` drops the cached entry for the
path and, conservatively, for its parent (spec section 4.3). -/
def invalidate : Cache → RPath → Cache
  | [], _ => []
  | (q, l) :: rest, p =>
    if q = p ∨ q = p.dropLast then invalidate rest p
    else (q, l) :: invalidate rest p

/-- The adapter's full state: the remote filesystem together with the
metadata cache (the only shared mutable resource, spec section 5). -/
structure AdapterState where
  fs : FSys
  cache : Cache
deriving DecidableEq

/-- Modelled from the spec: `listDirectory` runs through the cache's
`getOrFetch` - serve the cached listing when present, otherwise fetch it
from the remote state and remember it (spec section 4.3). -/
def readDirectory (s : AdapterState) (p : RPath) :
    Except FsError (List DirEntry) × AdapterState :=
  match cacheLookup s.cache p with
  | some l => (Except.ok l, s)
  | none =>
    match freshList s.fs p with
    | Except.ok l => (Except.ok l, ⟨s.fs, s.cache ++ [(p, l)]⟩)
    | Except.error e => (Except.error e, s)

/-- Modelled from the spec: `readFile` at the adapter level; it does not
consult or mutate the cache. -/
def readFile (s : AdapterState) (p : RPath) : Except FsError Bytes :=
  readFileFS s.fs p

/-- Modelled from the spec: `stat(locator)`; `NotFoundError` when the remote
path does not exist (spec sections 6, 7). -/
def statPath (s : AdapterState) (p : RPath) : Except FsError HNode :=
  match findNode s.fs p with
  | some n => Except.ok n
  | none => Except.error FsError.notFound

/-- Modelled from the spec: `createFile` at the adapter level - perform the
remote mutation, then invalidate the cache for the path and its parent,
after the mutation is confirmed and never before (spec sections 4.3, 5). -/
def writeFile (s : AdapterState) (p : RPath) (b : Bytes) (overwrite : Bool) :
    Except FsError AdapterState :=
  match createFileFS s.fs p b overwrite with
  | Except.ok fs' => Except.ok ⟨fs', invalidate s.cache p⟩
  | Except.error e => Except.error e

/-- Modelled from the spec: `createDirectory` at the adapter level,
invalidating after the confirmed `MKDIRS`. -/
def createDirectory (s : AdapterState) (p : RPath) :
    Except FsError AdapterState :=
  match mkdirFS s.fs p with
  | Except.ok fs' => Except.ok ⟨fs', invalidate s.cache p⟩
  | Except.error e => Except.error e

/-- Modelled from the spec: `delete` at the adapter level, invalidating
after the confirmed `DELETE`. -/
def deletePath (s : AdapterState) (p : RPath) (recursive : Bool) :
    Except FsError AdapterState :=
  match deleteFS s.fs p recursive with
  | Except.ok fs' => Except.ok ⟨fs', invalidate s.cache p⟩
  | Except.error e => Except.error e

/-- Modelled from the spec: `rename` at the adapter level, invalidating both
endpoints after the confirmed `RENAME`. -/
def renamePath (s : AdapterState) (src dst : RPath) :
    Except FsError AdapterState :=
  match renameFS s.fs src dst with
  | Except.ok fs' => Except.ok ⟨fs', invalidate (invalidate s.cache src) dst⟩
  | Except.error e => Except.error e

/-- Modelled from the spec: `copy(src, dst, {overwrite})` is implemented as
`readFile(src)` fully into memory followed by `createFile(dst, bytes,
overwrite)` (spec section 4.2, copy). -/
def copyFile (s : AdapterState) (src dst : RPath) (overwrite : Bool) :
    Except FsError AdapterState :=
  match readFile s src with
  | Except.ok b => writeFile s dst b overwrite
  | Except.error e => Except.error e

/-- The composition the spec's copy sentence literally describes - a full
in-memory read of the source followed by a create of the destination -
stated separately so the refinement claim can compare `copyFile` to it. -/
def copyViaReadWrite (s : AdapterState) (src dst : RPath) (overwrite : Bool) :
    Except FsError AdapterState :=
  match readFile s src with
  | Except.ok b => writeFile s dst b overwrite
  | Except.error e => Except.error e

/-- Modelled from the spec: the mutating operations the cache-invalidation
contract ranges over - write, mkdir, delete, rename, copy
(spec sections 3 and 4.3). -/
inductive MutOp where
  | write (p : RPath) (b : Bytes) (overwrite : Bool)
  | mkdir (p : RPath)
  | del (p : RPath) (recursive : Bool)
  | rename (src dst : RPath)
  | copy (src dst : RPath) (overwrite : Bool)

/-- The paths a mutating operation mutates (rename touches both endpoints;
copy mutates only its destination). -/
def MutOp.targets : MutOp → List RPath
  | MutOp.write p _ _ => [p]
  | MutOp.mkdir p => [p]
  | MutOp.del p _ => [p]
  | MutOp.rename src dst => [src, dst]
  | MutOp.copy _ dst _ => [dst]

/-- Dispatch a mutating operation to its adapter-level implementation. -/
def applyMut (s : AdapterState) : MutOp → Except FsError AdapterState
  | MutOp.write p b ow => writeFile s p b ow
  | MutOp.mkdir p => createDirectory s p
  | MutOp.del p r => deletePath s p r
  | MutOp.rename src dst => renamePath s src dst
  | MutOp.copy src dst ow => copyFile s src dst ow

/-- A request sent during a mutating write exchange: the negotiate request
(recording whether it carried a body) or the transfer request to a data-node
target carrying the payload. -/
inductive WriteRequest where
  | negotiate (hasBody : Bool)
  | transfer (target : String) (payload : Bytes)
deriving DecidableEq

/-- The remote's answer to the negotiate phase: an HTTP redirect naming the
data node in its `Location` header, or a failure (error status, transport
fault, or missing `Location`). -/
inductive NegotiateResponse where
  | redirect (location : String)
  | failure
deriving DecidableEq

/-- The remote's answer to the transfer phase. -/
inductive TransferResponse where
  | success
  | failure
deriving DecidableEq

/-- The reported outcome of a mutating write operation. -/
inductive OpStatus where
  | succeeded
  | failed
deriving DecidableEq

/-- Modelled from the spec: the two-phase write protocol of section 4.2 -
first a bodyless negotiate request, then, only if the negotiate phase
yielded a redirect, a single transfer request carrying the payload to the
redirect target; the operation succeeds only when both phases complete, and
no request is ever reissued. Returns the reported status together with the
exact request trace. -/
def performWrite (payload : Bytes) (neg : NegotiateResponse)
    (trans : String → TransferResponse) : OpStatus × List WriteRequest :=
  match neg with
  | NegotiateResponse.failure => (OpStatus.failed, [WriteRequest.negotiate false])
  | NegotiateResponse.redirect loc =>
    match trans loc with
    | TransferResponse.success =>
      (OpStatus.succeeded,
        [WriteRequest.negotiate false, WriteRequest.transfer loc payload])
    | TransferResponse.failure =>
      (OpStatus.failed,
        [WriteRequest.negotiate false, WriteRequest.transfer loc payload])

/-- Count the negotiate requests in a trace. -/
def countNegotiate (l : List WriteRequest) : Nat :=
  l.countP (fun r => match r with | WriteRequest.negotiate _ => true | _ => false)

/-- Count the transfer requests in a trace. -/
def countTransfer (l : List WriteRequest) : Nat :=
  l.countP (fun r => match r with | WriteRequest.transfer _ _ => true | _ => false)

/-- Character-level test that `s` starts with `pre` (the semantics of
JavaScript's `String.prototype.startsWith`, written over the underlying
character list so that it evaluates by computation). -/
def strStarts (s pre : String) : Bool :=
  pre.data.isPrefixOf s.data

/-- Split a character list on a separator character, keeping empty groups
(the semantics of `s.split('/')`). -/
def splitOnChar (c : Char) : List Char → List (List Char)
  | [] => [[]]
  | a :: rest =>
    match splitOnChar c rest, decide (a = c) with
    | r, true => [] :: r
    | [], false => [[a]]
    | g :: gs, false => (a :: g) :: gs

/-- Join character groups with a separator character (the semantics of
`groups.join('/')`). -/
def joinChar (c : Char) : List (List Char) → List Char
  | [] => []
  | [g] => g
  | g :: gs => g ++ c :: joinChar c gs

/-- The POSIX-normalization step of Node's `path.posix.resolve('/', s)`:
fold the split components left to right, skipping empty components and `.`,
popping one component for `..` (dropped silently at the root, since the
resolution base is absolute), and appending anything else. -/
def resolveStep (acc : List (List Char)) (c : List Char) : List (List Char) :=
  if c = [] ∨ c = [Char.ofNat 46] then acc
  else if c = [Char.ofNat 46, Char.ofNat 46] then acc.dropLast
  else acc ++ [c]

/-- Embedding of `path.posix.resolve('/', s)` as used by
`PAIJobManager.uploadCode` (paiJobManager.ts): split on `/`, normalize, and
rebuild rooted at `/`. -/
def posixResolveRoot (s : String) : String :=
  String.mk (Char.ofNat 47 ::
    joinChar (Char.ofNat 47)
      ((splitOnChar (Char.ofNat 47) s.data).foldl resolveStep []))

/-- The `$PAI_DEFAULT_FS_URI` stripping step of `uploadCode`:
`codeDir.substring('$PAI_DEFAULT_FS_URI'.length)` when the string starts
with that literal prefix, the string unchanged otherwise. -/
def stripDefaultFsUri (s : String) : String :=
  if strStarts s "$PAI_DEFAULT_FS_URI" then
    String.mk (s.data.drop "$PAI_DEFAULT_FS_URI".data.length)
  else s

/-- The failure modes of `uploadCode` before any remote call is made:
the cluster has no `webhdfs_uri` configured, or `codeDir` is rejected as an
invalid code directory. -/
inductive UploadErr where
  | webhdfsMissing
  | invalidCodeDir
deriving DecidableEq

/-- Embedding of the code-directory resolution in `PAIJobManager.uploadCode`
(paiJobManager.ts): fail early when the cluster lacks a `webhdfs_uri`; throw
the invalid-code-dir error when `codeDir` starts with `hdfs://` or
`webhdfs://` (caught by the surrounding try, which reports the error and
returns false before anything is uploaded); otherwise strip a leading
`$PAI_DEFAULT_FS_URI` and resolve the remainder against `/`. -/
def uploadCodePath (webhdfsUri : Option String) (codeDir : String) :
    Except UploadErr String :=
  match webhdfsUri with
  | none => Except.error UploadErr.webhdfsMissing
  | some _ =>
    if strStarts codeDir "hdfs://" || strStarts codeDir "webhdfs://" then
      Except.error UploadErr.invalidCodeDir
    else
      Except.ok (posixResolveRoot (stripDefaultFsUri codeDir))

/-- POSIX form of Node's `path.dirname`, applied in `uploadCode` to the
workspace-relative suffix of each uploaded file: everything before the last
separator, `.` when there is no separator. -/
def posixDirname (s : String) : String :=
  match (splitOnChar (Char.ofNat 47) s.data).dropLast with
  | [] => "."
  | comps => String.mk (joinChar (Char.ofNat 47) comps)

/-- The path of `Util.uriPathAppend(codeUri, rel)` (a URI helper outside the
provided sources): the base path extended with a separator and the appended
segment - only its role as the loop's set key matters for the claims. -/
def uriPathAppend (base : String) (suffix : String) : String :=
  base ++ "/" ++ suffix

/-- The bookkeeping state of the `uploadCode` upload loop: the
`createdDirectories` set (as the list of members in insertion order) and the
trace of `createDirectory` invocations actually issued. -/
structure UploadSt where
  created : List String
  calls : List String
deriving DecidableEq

/-- One iteration of the `uploadCode` loop, restricted to its
directory-creation bookkeeping (paiJobManager.ts, upload loop): compute the
file's base folder; when it is not `.`, form the remote directory path and,
only if that path is not yet in `createdDirectories`, add it to the set and
invoke `createDirectory` on it. -/
def uploadDirStep (codePath : String) (st : UploadSt) (suffix : String) :
    UploadSt :=
  let baseFolder := posixDirname suffix
  if baseFolder = "." then st
  else
    let p := uriPathAppend codePath baseFolder
    if p ∈ st.created then st
    else { created := st.created ++ [p], calls := st.calls ++ [p] }

/-- The directory-creation behaviour of a whole `uploadCode` run over the
listed project files: the code-directory path is pre-seeded into
`createdDirectories` and `createDirectory(codeUri)` is issued once before
the loop, then the loop body runs for each file suffix. -/
def uploadCodeDirs (codePath : String) (suffixes : List String) : UploadSt :=
  suffixes.foldl (uploadDirStep codePath)
    { created := [codePath], calls := [codePath] }

theorem findNode_append_right (l₁ l₂ : FSys) (p : RPath)
    (h : findNode l₁ p = none) : findNode (l₁ ++ l₂) p = findNode l₂ p := by
  induction l₁ with
  | nil => simp
  | cons e rest ih =>
    obtain ⟨q, n⟩ := e
    by_cases hq : q = p
    · simp [findNode, hq] at h
    · simp only [findNode, hq, if_false] at h
      simpa [findNode, hq] using ih h

theorem findNode_filterOut_self (fs : FSys) (p : RPath) :
    findNode (filterOut fs p) p = none := by
  induction fs with
  | nil => simp [filterOut, findNode]
  | cons e rest ih =>
    obtain ⟨q, n⟩ := e
    by_cases hq : q = p
    · simpa [filterOut, hq] using ih
    · simpa [filterOut, findNode, hq] using ih

theorem findNode_setNode_self (fs : FSys) (p : RPath) (n : HNode) :
    findNode (setNode fs p n) p = some n := by
  unfold setNode
  rw [findNode_append_right _ _ _ (findNode_filterOut_self fs p)]
  simp [findNode]

theorem isUnder_refl (p : RPath) : isUnder p p = true := by
  induction p with
  | nil => simp [isUnder]
  | cons a as ih => simp [isUnder, ih]

theorem mem_removeTree {fs : FSys} {p : RPath} {e : RPath × HNode}
    (h : e ∈ removeTree fs p) : isUnder p e.1 = false := by
  induction fs with
  | nil => simp [removeTree] at h
  | cons f rest ih =>
    obtain ⟨q, n⟩ := f
    by_cases hq : isUnder p q = true
    · simp only [removeTree, hq, if_true] at h
      exact ih h
    · simp only [removeTree, hq, if_false] at h
      rcases List.mem_cons.mp h with h1 | h2
      · subst h1
        simpa using hq
      · exact ih h2

theorem findNode_removeTree {fs : FSys} {p q : RPath}
    (hq : isUnder p q = true) : findNode (removeTree fs p) q = none := by
  induction fs with
  | nil => simp [removeTree, findNode]
  | cons e rest ih =>
    obtain ⟨k, n⟩ := e
    by_cases hk : isUnder p k = true
    · simpa [removeTree, hk] using ih
    · have hne : k ≠ q := by
        intro h
        exact hk (h ▸ hq)
      simpa [removeTree, hk, findNode, hne] using ih

theorem splitChild_some {d q : RPath} {a : String}
    (h : splitChild d q = some a) : q = d ++ [a] := by
  unfold splitChild at h
  by_cases hc : q ≠ [] ∧ q.dropLast = d
  · rw [if_pos hc] at h
    rcases List.eq_nil_or_concat q with hq | ⟨L, b, hq⟩
    · exact absurd hq hc.1
    · subst hq
      simp only [List.concat_eq_append, List.getLast?_concat, Option.some.injEq] at h
      have hd : L = d := by
        have := hc.2
        simpa [List.dropLast_concat] using this
      simp [hd, h]
  · rw [if_neg hc] at h
    exact absurd h (by simp)

theorem mem_listFS {fs : FSys} {d : RPath} {x : DirEntry}
    (h : x ∈ listFS fs d) : (d ++ [x.1], x.2) ∈ fs := by
  induction fs with
  | nil => simp [listFS] at h
  | cons e rest ih =>
    obtain ⟨q, n⟩ := e
    cases hs : splitChild d q with
    | some name =>
      simp only [listFS, hs] at h
      rcases List.mem_cons.mp h with h1 | h2
      · subst h1
        have hq : q = d ++ [name] := splitChild_some hs
        simp [hq]
      · exact List.mem_cons_of_mem _ (ih h2)
    | none =>
      simp only [listFS, hs] at h
      exact List.mem_cons_of_mem _ (ih h)

theorem cacheLookup_invalidate_self (c : Cache) (p : RPath) :
    cacheLookup (invalidate c p) p = none := by
  induction c with
  | nil => simp [invalidate, cacheLookup]
  | cons e rest ih =>
    obtain ⟨q, l⟩ := e
    rw [invalidate]
    by_cases hq : q = p ∨ q = p.dropLast
    · rw [if_pos hq]
      exact ih
    · rw [if_neg hq]
      have hne : q ≠ p := fun h => hq (Or.inl h)
      rw [cacheLookup, if_neg hne]
      exact ih

theorem cacheLookup_invalidate_parent (c : Cache) (p : RPath) :
    cacheLookup (invalidate c p) p.dropLast = none := by
  induction c with
  | nil => simp [invalidate, cacheLookup]
  | cons e rest ih =>
    obtain ⟨q, l⟩ := e
    rw [invalidate]
    by_cases hq : q = p ∨ q = p.dropLast
    · rw [if_pos hq]
      exact ih
    · rw [if_neg hq]
      have hne : q ≠ p.dropLast := fun h => hq (Or.inr h)
      rw [cacheLookup, if_neg hne]
      exact ih

theorem cacheLookup_invalidate_of_none {c : Cache} {q : RPath} (p : RPath)
    (h : cacheLookup c q = none) :
    cacheLookup (invalidate c p) q = none := by
  induction c with
  | nil => simp [invalidate, cacheLookup]
  | cons e rest ih =>
    obtain ⟨k, l⟩ := e
    by_cases hk : k = q
    · simp [cacheLookup, hk] at h
    · simp only [cacheLookup, hk, if_false] at h
      rw [invalidate]
      by_cases hc : k = p ∨ k = p.dropLast
      · rw [if_pos hc]
        exact ih h
      · rw [if_neg hc, cacheLookup, if_neg hk]
        exact ih h

theorem invalidate_idem (c : Cache) (p : RPath) :
    invalidate (invalidate c p) p = invalidate c p := by
  induction c with
  | nil => simp [invalidate]
  | cons e rest ih =>
    obtain ⟨q, l⟩ := e
    rw [invalidate]
    by_cases hq : q = p ∨ q = p.dropLast
    · rw [if_pos hq]
      exact ih
    · rw [if_neg hq, invalidate, if_neg hq, ih]

theorem cacheLookup_append_self {c : Cache} {p : RPath} (l : List DirEntry)
    (h : cacheLookup c p = none) :
    cacheLookup (c ++ [(p, l)]) p = some l := by
  induction c with
  | nil => simp [cacheLookup]
  | cons e rest ih =>
    obtain ⟨q, m⟩ := e
    by_cases hq : q = p
    · simp [cacheLookup, hq] at h
    · simp only [cacheLookup, hq, if_false] at h
      simpa [cacheLookup, hq] using ih h

theorem readDirectory_uncached {s : AdapterState} {p : RPath}
    (h : cacheLookup s.cache p = none) :
    (readDirectory s p).1 = freshList s.fs p := by
  unfold readDirectory
  rw [h]
  cases hf : freshList s.fs p <;> simp [hf]

theorem createFileFS_ok {fs fs' : FSys} {p : RPath} {b : Bytes} {ow : Bool}
    (h : createFileFS fs p b ow = Except.ok fs') :
    fs' = setNode fs p (HNode.file b) := by
  unfold createFileFS at h
  cases hf : findNode fs p with
  | none =>
    rw [hf] at h
    injection h with h2
    exact h2.symm
  | some n =>
    cases n with
    | dir =>
      rw [hf] at h
      simp at h
    | file c =>
      rw [hf] at h
      cases ow with
      | false => simp at h
      | true =>
        simp only [if_true] at h
        injection h with h2
        exact h2.symm

theorem writeFile_ok_fs {s s' : AdapterState} {p : RPath} {b : Bytes}
    {ow : Bool} (h : writeFile s p b ow = Except.ok s') :
    s'.fs = setNode s.fs p (HNode.file b) := by
  unfold writeFile at h
  split at h
  · injection h with h2
    rw [← h2]
    exact createFileFS_ok (by assumption)
  · simp at h

theorem writeFile_ok_cache {s s' : AdapterState} {p : RPath} {b : Bytes}
    {ow : Bool} (h : writeFile s p b ow = Except.ok s') :
    s'.cache = invalidate s.cache p := by
  unfold writeFile at h
  split at h
  · injection h with h2
    rw [← h2]
  · simp at h

theorem mkdirFS_ok_dir {fs fs' : FSys} {p : RPath}
    (h : mkdirFS fs p = Except.ok fs') : findNode fs' p = some HNode.dir := by
  unfold mkdirFS at h
  cases hf : findNode fs p with
  | none =>
    rw [hf] at h
    injection h with h2
    rw [← h2]
    exact findNode_setNode_self fs p HNode.dir
  | some n =>
    cases n with
    | dir =>
      rw [hf] at h
      injection h with h2
      rw [← h2]
      exact hf
    | file c =>
      rw [hf] at h
      simp at h

theorem createDirectory_ok {s s' : AdapterState} {p : RPath}
    (h : createDirectory s p = Except.ok s') :
    mkdirFS s.fs p = Except.ok s'.fs ∧ s'.cache = invalidate s.cache p := by
  unfold createDirectory at h
  split at h
  · injection h with h2
    rw [← h2]
    exact ⟨by assumption, rfl⟩
  · simp at h

theorem deletePath_ok_cache {s s' : AdapterState} {p : RPath} {r : Bool}
    (h : deletePath s p r = Except.ok s') :
    s'.cache = invalidate s.cache p := by
  unfold deletePath at h
  split at h
  · injection h with h2
    rw [← h2]
  · simp at h

theorem renamePath_ok_cache {s s' : AdapterState} {src dst : RPath}
    (h : renamePath s src dst = Except.ok s') :
    s'.cache = invalidate (invalidate s.cache src) dst := by
  unfold renamePath at h
  split at h
  · injection h with h2
    rw [← h2]
  · simp at h

theorem copyFile_ok_cache {s s' : AdapterState} {src dst : RPath} {ow : Bool}
    (h : copyFile s src dst ow = Except.ok s') :
    s'.cache = invalidate s.cache dst := by
  unfold copyFile at h
  split at h
  · exact writeFile_ok_cache h
  · simp at h

theorem readDirectory_cached (s : AdapterState) (p : RPath)
    (l : List DirEntry) (h : cacheLookup s.cache p = some l) :
    readDirectory s p = (Except.ok l, s) := by
  simp [readDirectory, h]

theorem readDirectory_fetch_ok (s : AdapterState) (p : RPath)
    (l : List DirEntry) (h1 : cacheLookup s.cache p = none)
    (h2 : freshList s.fs p = Except.ok l) :
    readDirectory s p = (Except.ok l, ⟨s.fs, s.cache ++ [(p, l)]⟩) := by
  simp [readDirectory, h1, h2]

theorem readDirectory_fetch_err (s : AdapterState) (p : RPath) (e : FsError)
    (h1 : cacheLookup s.cache p = none)
    (h2 : freshList s.fs p = Except.error e) :
    readDirectory s p = (Except.error e, s) := by
  simp [readDirectory, h1, h2]

theorem invalidated_target {s' : AdapterState} {t : RPath}
    (h1 : cacheLookup s'.cache t = none)
    (h2 : cacheLookup s'.cache t.dropLast = none) :
    cacheLookup s'.cache t = none ∧
    cacheLookup s'.cache t.dropLast = none ∧
    (readDirectory s' t).1 = freshList s'.fs t ∧
    (readDirectory s' t.dropLast).1 = freshList s'.fs t.dropLast :=
  ⟨h1, h2, readDirectory_uncached h1, readDirectory_uncached h2⟩

/-- C1: for every path and every byte sequence, a successful
`createFile(p, B)` followed by `readFile(p)` on the resulting state, with no
intervening mutation, returns exactly `B`, byte for byte. -/
theorem hdfs_create_read_roundtrip (s s' : AdapterState) (p : RPath)
    (b : Bytes) (ow : Bool) (h : writeFile s p b ow = Except.ok s') :
    readFile s' p = Except.ok b := by
  have hfs : s'.fs = setNode s.fs p (HNode.file b) := writeFile_ok_fs h
  unfold readFile readFileFS
  rw [hfs, findNode_setNode_self]

theorem hdfs_create_read_roundtrip_witness :
    readFile ⟨[(["f"], HNode.file [102, 97])], []⟩ ["f"] =
      Except.ok [102, 97] :=
  hdfs_create_read_roundtrip ⟨[], []⟩
    ⟨[(["f"], HNode.file [102, 97])], []⟩ ["f"] [102, 97] false rfl

/-- C2: every mutating write runs in exactly two phases - a bodyless
negotiate request first, then, only when the negotiate phase produced a
redirect, a single transfer request carrying the payload to the redirect
target; the operation is reported successful exactly when both phases
complete, either failure leaves it failed, and no request is ever reissued
(no automatic retry). -/
theorem hdfs_two_phase_write (payload : Bytes) (neg : NegotiateResponse)
    (trans : String → TransferResponse) :
    (performWrite payload neg trans).2.head? =
      some (WriteRequest.negotiate false) ∧
    ((performWrite payload neg trans).1 = OpStatus.succeeded ↔
      ∃ loc, neg = NegotiateResponse.redirect loc ∧
        trans loc = TransferResponse.success) ∧
    countNegotiate (performWrite payload neg trans).2 = 1 ∧
    countTransfer (performWrite payload neg trans).2 ≤ 1 ∧
    (∀ loc, neg = NegotiateResponse.redirect loc →
      (performWrite payload neg trans).2 =
        [WriteRequest.negotiate false, WriteRequest.transfer loc payload]) := by
  cases neg with
  | failure =>
    simp [performWrite, countNegotiate, countTransfer, List.countP,
      List.countP.go]
  | redirect loc =>
    cases ht : trans loc with
    | success =>
      simp [performWrite, ht, countNegotiate, countTransfer, List.countP,
        List.countP.go]
    | failure =>
      simp [performWrite, ht, countNegotiate, countTransfer, List.countP,
        List.countP.go]

theorem hdfs_two_phase_write_witness :
    (performWrite [1] (NegotiateResponse.redirect "dn")
        (fun _ => TransferResponse.success)).2 =
      [WriteRequest.negotiate false, WriteRequest.transfer "dn" [1]] :=
  (hdfs_two_phase_write [1] (NegotiateResponse.redirect "dn")
      (fun _ => TransferResponse.success)).2.2.2.2 "dn" rfl

/-- C3: `copy(src, dst, overwrite)` equals the composition of a full
in-memory `readFile(src)` with `createFile(dst, bytes, overwrite)`, and
after a successful copy `readFile(dst)` returns exactly the bytes
`readFile(src)` returned. -/
theorem hdfs_copy_refines_read_create (s : AdapterState) (src dst : RPath)
    (ow : Bool) :
    copyFile s src dst ow = copyViaReadWrite s src dst ow ∧
    ∀ s', copyFile s src dst ow = Except.ok s' →
      ∃ b, readFile s src = Except.ok b ∧ readFile s' dst = Except.ok b := by
  refine ⟨rfl, ?_⟩
  intro s' h
  unfold copyFile at h
  cases hr : readFile s src with
  | ok b =>
    simp only [hr] at h
    refine ⟨b, rfl, ?_⟩
    have hfs : s'.fs = setNode s.fs dst (HNode.file b) := writeFile_ok_fs h
    unfold readFile readFileFS
    rw [hfs, findNode_setNode_self]
  | error e =>
    simp only [hr] at h
    simp at h

theorem hdfs_copy_refines_read_create_witness :
    ∃ b, readFile ⟨[(["a"], HNode.file [7])], []⟩ ["a"] = Except.ok b ∧
      readFile ⟨[(["a"], HNode.file [7]), (["b"], HNode.file [7])], []⟩ ["b"] =
        Except.ok b :=
  (hdfs_copy_refines_read_create ⟨[(["a"], HNode.file [7])], []⟩ ["a"] ["b"]
      false).2
    ⟨[(["a"], HNode.file [7]), (["b"], HNode.file [7])], []⟩ rfl

/-- C4: deleting a directory that has at least one descendant with
`recursive = false` fails with `NotEmptyError` (the state is untouched);
deleting it with `recursive = true` succeeds, after which `stat` on the
directory fails with `NotFoundError` and the directory no longer appears in
its parent's listing. -/
theorem hdfs_delete_semantics (s : AdapterState) (p : RPath)
    (hdir : findNode s.fs p = some HNode.dir)
    (hchild : hasDescendant s.fs p = true) (hne : p ≠ []) :
    deletePath s p false = Except.error FsError.notEmpty ∧
    ∃ s', deletePath s p true = Except.ok s' ∧
      statPath s' p = Except.error FsError.notFound ∧
      ∀ k, (p.getLast hne, k) ∉ listFS s'.fs p.dropLast := by
  constructor
  · simp [deletePath, deleteFS, hdir, hchild]
  · refine ⟨⟨removeTree s.fs p, invalidate s.cache p⟩, ?_, ?_, ?_⟩
    · simp [deletePath, deleteFS, hdir]
    · unfold statPath
      rw [findNode_removeTree (isUnder_refl p)]
    · intro k hk
      have hmem := mem_listFS hk
      have hpp : p.dropLast ++ [p.getLast hne] = p :=
        List.dropLast_append_getLast hne
      simp only [hpp] at hmem
      have hf := mem_removeTree hmem
      rw [isUnder_refl] at hf
      exact absurd hf (by simp)

theorem hdfs_delete_semantics_witness :
    deletePath ⟨[(["d"], HNode.dir), (["d", "c"], HNode.file [1])], []⟩
      ["d"] false = Except.error FsError.notEmpty :=
  (hdfs_delete_semantics
      ⟨[(["d"], HNode.dir), (["d", "c"], HNode.file [1])], []⟩ ["d"]
      (by decide) (by decide) (by decide)).1

/-- C5: after a successful `createFile(p, bytes, overwrite = false)`, a
second `createFile(p, bytes2, overwrite = false)` fails with the
destination-exists error and leaves the content unchanged - `readFile(p)`
still returns the original bytes. -/
theorem hdfs_create_exists_preserves (s s' : AdapterState) (p : RPath)
    (b b2 : Bytes) (h : writeFile s p b false = Except.ok s') :
    writeFile s' p b2 false = Except.error FsError.destinationExists ∧
    readFile s' p = Except.ok b := by
  have hfs : s'.fs = setNode s.fs p (HNode.file b) := writeFile_ok_fs h
  constructor
  · simp [writeFile, createFileFS, hfs, findNode_setNode_self]
  · unfold readFile readFileFS
    rw [hfs, findNode_setNode_self]

theorem hdfs_create_exists_preserves_witness :
    writeFile ⟨[(["f"], HNode.file [1, 2])], []⟩ ["f"] [3] false =
      Except.error FsError.destinationExists ∧
    readFile ⟨[(["f"], HNode.file [1, 2])], []⟩ ["f"] = Except.ok [1, 2] :=
  hdfs_create_exists_preserves ⟨[], []⟩ ⟨[(["f"], HNode.file [1, 2])], []⟩
    ["f"] [1, 2] [3] rfl

/-- C6: every confirmed mutating operation (write, mkdir, delete, rename,
copy) invalidates the cached listings for each path it mutates and for that
path's parent, so the next `listDirectory` on the path or on its parent is
fetched fresh and reflects the post-operation remote state exactly. -/
theorem hdfs_mutation_invalidates_cache (s s' : AdapterState) (op : MutOp)
    (h : applyMut s op = Except.ok s') :
    ∀ t ∈ op.targets,
      cacheLookup s'.cache t = none ∧
      cacheLookup s'.cache t.dropLast = none ∧
      (readDirectory s' t).1 = freshList s'.fs t ∧
      (readDirectory s' t.dropLast).1 = freshList s'.fs t.dropLast := by
  intro t ht
  cases op with
  | write p b ow =>
    simp only [MutOp.targets, List.mem_singleton] at ht
    subst ht
    have hc : s'.cache = invalidate s.cache t := writeFile_ok_cache h
    refine invalidated_target ?_ ?_
    · rw [hc]
      exact cacheLookup_invalidate_self _ _
    · rw [hc]
      exact cacheLookup_invalidate_parent _ _
  | mkdir p =>
    simp only [MutOp.targets, List.mem_singleton] at ht
    subst ht
    have hc : s'.cache = invalidate s.cache t := (createDirectory_ok h).2
    refine invalidated_target ?_ ?_
    · rw [hc]
      exact cacheLookup_invalidate_self _ _
    · rw [hc]
      exact cacheLookup_invalidate_parent _ _
  | del p r =>
    simp only [MutOp.targets, List.mem_singleton] at ht
    subst ht
    have hc : s'.cache = invalidate s.cache t := deletePath_ok_cache h
    refine invalidated_target ?_ ?_
    · rw [hc]
      exact cacheLookup_invalidate_self _ _
    · rw [hc]
      exact cacheLookup_invalidate_parent _ _
  | rename src dst =>
    have hc : s'.cache = invalidate (invalidate s.cache src) dst :=
      renamePath_ok_cache h
    simp only [MutOp.targets, List.mem_cons, List.mem_singleton,
      List.not_mem_nil, or_false] at ht
    rcases ht with rfl | rfl
    · refine invalidated_target ?_ ?_
      · rw [hc]
        exact cacheLookup_invalidate_of_none dst
          (cacheLookup_invalidate_self _ _)
      · rw [hc]
        exact cacheLookup_invalidate_of_none dst
          (cacheLookup_invalidate_parent _ _)
    · refine invalidated_target ?_ ?_
      · rw [hc]
        exact cacheLookup_invalidate_self _ _
      · rw [hc]
        exact cacheLookup_invalidate_parent _ _
  | copy src dst ow =>
    simp only [MutOp.targets, List.mem_singleton] at ht
    subst ht
    have hc : s'.cache = invalidate s.cache t := copyFile_ok_cache h
    refine invalidated_target ?_ ?_
    · rw [hc]
      exact cacheLookup_invalidate_self _ _
    · rw [hc]
      exact cacheLookup_invalidate_parent _ _

theorem hdfs_mutation_invalidates_cache_witness :
    cacheLookup
      (AdapterState.cache
        ⟨[(["f"], HNode.file [1])], []⟩) [] = none :=
  (hdfs_mutation_invalidates_cache
      ⟨[], [([], [("x", HNode.dir)])]⟩ ⟨[(["f"], HNode.file [1])], []⟩
      (MutOp.write ["f"] [1] false) rfl ["f"]
      (by decide)).2.1

/-- C7: two `listDirectory(p)` calls with no mutation in between return
identical ordered sequences - the second call, whether served from the
cache or fetched again, agrees with the first. -/
theorem hdfs_list_idempotent (s : AdapterState) (p : RPath) :
    (readDirectory s p).1 = (readDirectory (readDirectory s p).2 p).1 := by
  cases hc : cacheLookup s.cache p with
  | some l =>
    rw [readDirectory_cached s p l hc]
    rw [readDirectory_cached s p l hc]
  | none =>
    cases hf : freshList s.fs p with
    | ok l =>
      rw [readDirectory_fetch_ok s p l hc hf]
      rw [readDirectory_cached ⟨s.fs, s.cache ++ [(p, l)]⟩ p l
        (cacheLookup_append_self l hc)]
    | error e =>
      rw [readDirectory_fetch_err s p e hc hf]
      rw [readDirectory_fetch_err s p e hc hf]

/-- C8: `createDirectory` is idempotent - when the directory already exists
it succeeds silently leaving the remote filesystem unchanged, and running
`createDirectory` again immediately after any successful `createDirectory`
succeeds and changes nothing, so the composition equals a single call. -/
theorem hdfs_mkdir_idempotent (s : AdapterState) (p : RPath) :
    (findNode s.fs p = some HNode.dir →
      ∃ s', createDirectory s p = Except.ok s' ∧ s'.fs = s.fs) ∧
    (∀ s', createDirectory s p = Except.ok s' →
      createDirectory s' p = Except.ok s') := by
  constructor
  · intro hdir
    refine ⟨⟨s.fs, invalidate s.cache p⟩, ?_, rfl⟩
    simp [createDirectory, mkdirFS, hdir]
  · intro s' h
    obtain ⟨hm, hc⟩ := createDirectory_ok h
    have hdir : findNode s'.fs p = some HNode.dir := mkdirFS_ok_dir hm
    have heq : createDirectory s' p =
        Except.ok ⟨s'.fs, invalidate s'.cache p⟩ := by
      simp [createDirectory, mkdirFS, hdir]
    have hcc : invalidate s'.cache p = s'.cache := by
      rw [hc, invalidate_idem]
    rw [heq, hcc]

theorem hdfs_mkdir_idempotent_witness :
    createDirectory ⟨[(["d"], HNode.dir)], []⟩ ["d"] =
      Except.ok ⟨[(["d"], HNode.dir)], []⟩ :=
  (hdfs_mkdir_idempotent ⟨[], []⟩ ["d"]).2 ⟨[(["d"], HNode.dir)], []⟩
    rfl

theorem uploadDirs_invariant (codePath : String) (suffixes : List String) :
    ∀ st : UploadSt, st.calls.Nodup → (∀ x ∈ st.calls, x ∈ st.created) →
      (suffixes.foldl (uploadDirStep codePath) st).calls.Nodup ∧
      ∀ x ∈ (suffixes.foldl (uploadDirStep codePath) st).calls,
        x ∈ (suffixes.foldl (uploadDirStep codePath) st).created := by
  induction suffixes with
  | nil =>
    intro st h1 h2
    exact ⟨h1, h2⟩
  | cons sfx rest ih =>
    intro st h1 h2
    rw [List.foldl_cons]
    apply ih
    · unfold uploadDirStep
      by_cases hb : posixDirname sfx = "."
      · simpa [hb] using h1
      · by_cases hm : uriPathAppend codePath (posixDirname sfx) ∈ st.created
        · simpa [hb, hm] using h1
        · have hnc : uriPathAppend codePath (posixDirname sfx) ∉ st.calls :=
            fun hx => hm (h2 _ hx)
          simp only [hb, hm, if_false]
          simpa [List.nodup_append] using ⟨h1, hnc⟩
    · unfold uploadDirStep
      by_cases hb : posixDirname sfx = "."
      · simpa [hb] using h2
      · by_cases hm : uriPathAppend codePath (posixDirname sfx) ∈ st.created
        · simpa [hb, hm] using h2
        · simp only [hb, hm, if_false]
          intro x hx
          simp only [List.mem_append, List.mem_singleton] at hx ⊢
          rcases hx with hx | hx
          · exact Or.inl (h2 _ hx)
          · exact Or.inr hx

/-- C9: in `uploadCode`, with a configured `webhdfs_uri`, the code-directory
resolution rejects any `codeDir` starting with `hdfs://` or `webhdfs://`
with the invalid-code-dir error (so the upload fails before anything is
uploaded), and otherwise yields exactly the `$PAI_DEFAULT_FS_URI`-stripped
remainder resolved against `/`, which is always an absolute POSIX path. -/
theorem uploadCode_codeDir_resolution (u codeDir : String) :
    (uploadCodePath (some u) codeDir = Except.error UploadErr.invalidCodeDir ↔
      (strStarts codeDir "hdfs://" = true ∨
        strStarts codeDir "webhdfs://" = true)) ∧
    ∀ r, uploadCodePath (some u) codeDir = Except.ok r →
      r = posixResolveRoot (stripDefaultFsUri codeDir) ∧
      ∃ t, r = "/" ++ t := by
  constructor
  · unfold uploadCodePath
    by_cases h : (strStarts codeDir "hdfs://" ||
        strStarts codeDir "webhdfs://") = true
    · rw [if_pos h]
      simp only [Bool.or_eq_true] at h
      simpa using h
    · rw [if_neg h]
      simp only [Bool.or_eq_true] at h
      simpa using h
  · intro r hr
    unfold uploadCodePath at hr
    by_cases h : (strStarts codeDir "hdfs://" ||
        strStarts codeDir "webhdfs://") = true
    · rw [if_pos h] at hr
      simp at hr
    · rw [if_neg h] at hr
      injection hr with h2
      refine ⟨h2.symm, ?_⟩
      rw [← h2]
      exact ⟨_, rfl⟩

theorem uploadCode_codeDir_resolution_witness :
    uploadCodePath (some "h") "hdfs://a/b" =
      Except.error UploadErr.invalidCodeDir ∧
    ∃ t, "/user/code" = "/" ++ t :=
  ⟨(uploadCode_codeDir_resolution "h" "hdfs://a/b").1.mpr
      (Or.inl (by decide)),
    ((uploadCode_codeDir_resolution "h" "$PAI_DEFAULT_FS_URI/user/code").2
        "/user/code" rfl).2⟩

/-- C10: within a single `uploadCode` run, `createDirectory` is invoked at
most once per distinct remote directory path - the trace of invoked paths
has no duplicates. -/
theorem uploadCode_mkdir_once (codePath : String) (suffixes : List String) :
    (uploadCodeDirs codePath suffixes).calls.Nodup :=
  (uploadDirs_invariant codePath suffixes ⟨[codePath], [codePath]⟩
    (by simp) (by simp)).1
